import Mathlib

/-!
Shallow embedding of the athena reverse proxy core (src/router.rs and
src/proxy_request.rs) and proofs about its routing, cache-key derivation,
cache TTL behaviour, header translation and forwarding pipeline.

Strings model Rust strings and HTTP header byte strings; a `Char` with
code point below 256 models one byte.  Machine integers do not occur in
the modelled code paths.
-/

/-- JSON values, modelling serde_json::Value as stored in the response
cache.  The proxy never inspects the structure of a parsed value, so the
parser and serializer are kept abstract in the theorems below. -/
inductive JsonVal where
  | null
  | jbool (b : Bool)
  | jnum (n : Int)
  | jstr (s : String)
  | jarr (elems : List JsonVal)
  | jobj (fields : List (String × JsonVal))

/-- Does the pattern list occur at the very front of the second list?
Models byte-wise prefix testing used by Rust `str::replacen` matching and
`str::strip_prefix`. -/
def startsWithL : List Char → List Char → Bool
  | [], _ => true
  | _ :: _, [] => false
  | p :: ps, c :: cs => p == c && startsWithL ps cs

/-- Split a list around the first occurrence of the pattern: returns the
part strictly before the match and the part strictly after it, or `none`
when the pattern does not occur.  This is the search underlying both Rust
`str::contains` and `str::replacen(pat, repl, 1)`. -/
def splitFirst (pat : List Char) : List Char → Option (List Char × List Char)
  | [] => if startsWithL pat [] then some ([], ([] : List Char).drop pat.length) else none
  | c :: cs =>
    if startsWithL pat (c :: cs) then some ([], (c :: cs).drop pat.length)
    else
      match splitFirst pat cs with
      | some p => some (c :: p.1, p.2)
      | none => none

/-- Model of Rust `s.replacen(pat, "", 1)`: remove the first occurrence of
`pat` from `s` (and only the first), leaving `s` unchanged when `pat` does
not occur.  Used in proxy_request.rs line 36 to strip `/rest/v1`. -/
def replacenOnce (s pat : String) : String :=
  match splitFirst pat.data s.data with
  | some p => ⟨p.1 ++ p.2⟩
  | none => s

/-- Model of Rust `s.contains(pat)` substring containment, used by
determine_target_url and the inline host check in proxy_request.rs. -/
def containsSub (s pat : String) : Bool :=
  (splitFirst pat.data s.data).isSome

/-- Constant TARGET_BASE_URL from router.rs / proxy_request.rs. -/
def TARGET_BASE_URL : String := "https://db-suitsbooks-nl.xylex.cloud"

/-- Constant HOST_DEXTER from router.rs / proxy_request.rs. -/
def HOST_DEXTER : String := "db-dexter.xylex.cloud"

/-- Constant TARGET_BASE_URL_DEXTER from router.rs / proxy_request.rs. -/
def TARGET_BASE_URL_DEXTER : String := "https://athena.dexter.xylex.cloud"

/-- Embedding of `determine_target_url` from src/router.rs lines 6-12. -/
def determine_target_url (host path : String) : String :=
  if containsSub host HOST_DEXTER then TARGET_BASE_URL_DEXTER ++ path
  else TARGET_BASE_URL ++ path

/-- The ordered matcher table described by the spec for the Target
Resolver: host-substring matcher paired with backend origin, evaluated
top to bottom, with a configured default origin as fallback. -/
def routeRules : List (String × String) := [(HOST_DEXTER, TARGET_BASE_URL_DEXTER)]

/-- Target resolution written the way the spec words it (section 4.1):
first matcher whose substring appears in the inbound host wins, otherwise
the default origin; the resolved URL is origin concatenated with path. -/
def resolveSpec (host path : String) : String :=
  (match routeRules.find? (fun r => containsSub host r.1) with
   | some r => r.2
   | none => TARGET_BASE_URL) ++ path

/-- Replace every occurrence of one character by a replacement string:
model of Rust `String::replace(char, &str)` used on the cache key in
proxy_request.rs lines 75-79. -/
def expandChars (f : Char → List Char) : List Char → List Char
  | [] => []
  | c :: cs => f c ++ expandChars f cs

/-- One `replace` pass over the character list. -/
def replaceChar (t : Char) (r : List Char) (s : List Char) : List Char :=
  expandChars (fun c => if c == t then r else [c]) s

/-- Model of Rust `s.replace(t, r)` on strings. -/
def rustReplace (s : String) (t : Char) (r : String) : String :=
  ⟨replaceChar t r.data s.data⟩

/-- Embedding of the cache key computation of proxy_request.rs lines
75-79: join method, full URL and bearer credential with dashes, then the
four sequential character replacements exactly as the source chains them. -/
def derive_cachekey (method fullUrl credential : String) : String :=
  rustReplace (rustReplace (rustReplace (rustReplace
    (method ++ "-" ++ fullUrl ++ "-" ++ credential) '*' "_xXx_") ' ' "_") ':' "-") '/' "_"

/-- Per-character substitution table as the spec words it (section 4.2):
star to _xXx_, space to underscore, colon to dash, slash to underscore,
all other characters unchanged. -/
def specSubstChar (c : Char) : List Char :=
  if c == '*' then "_xXx_".data
  else if c == ' ' then "_".data
  else if c == ':' then "-".data
  else if c == '/' then "_".data
  else [c]

/-- Cache key derivation written the way the spec words it: build the
dash-joined tuple string, then apply the character substitution table
simultaneously to every character. -/
def spec_deriveKey (method fullUrl credential : String) : String :=
  ⟨expandChars specSubstChar (method ++ "-" ++ fullUrl ++ "-" ++ credential).data⟩

theorem startsWithL_append_self (pat l : List Char) :
    startsWithL pat (pat ++ l) = true := by
  induction pat with
  | nil => rfl
  | cons p ps ih => simp [startsWithL, ih]

theorem splitFirst_append_self (pat l : List Char) :
    splitFirst pat (pat ++ l) = some ([], l) := by
  cases pat with
  | nil =>
    cases l with
    | nil => rfl
    | cons c cs => simp [splitFirst, startsWithL]
  | cons p ps =>
    show splitFirst (p :: ps) (p :: (ps ++ l)) = some ([], l)
    have hs : startsWithL (p :: ps) (p :: (ps ++ l)) = true := by
      simpa using startsWithL_append_self (p :: ps) l
    simp only [splitFirst, hs, if_pos]
    simp [List.drop_left]

theorem replacenOnce_of_lead (pat rest : String) :
    replacenOnce ⟨pat.data ++ rest.data⟩ pat = rest := by
  unfold replacenOnce
  simp [splitFirst_append_self pat.data rest.data]

theorem expandChars_append (f : Char → List Char) (xs ys : List Char) :
    expandChars f (xs ++ ys) = expandChars f xs ++ expandChars f ys := by
  induction xs with
  | nil => rfl
  | cons c cs ih => simp [expandChars, ih]

theorem replaceChar_append (t : Char) (r xs ys : List Char) :
    replaceChar t r (xs ++ ys) = replaceChar t r xs ++ replaceChar t r ys :=
  expandChars_append _ xs ys

theorem seqSubst_char (c : Char) :
    replaceChar '/' "_".data (replaceChar ':' "-".data (replaceChar ' ' "_".data
      (if c == '*' then "_xXx_".data else [c]))) = specSubstChar c := by
  by_cases h1 : c = '*'
  · subst h1; decide
  · by_cases h2 : c = ' '
    · subst h2; decide
    · by_cases h3 : c = ':'
      · subst h3; decide
      · by_cases h4 : c = '/'
        · subst h4; decide
        · simp [replaceChar, expandChars, specSubstChar, h1, h2, h3, h4]

theorem seqSubst_eq_spec (l : List Char) :
    replaceChar '/' "_".data (replaceChar ':' "-".data (replaceChar ' ' "_".data
      (replaceChar '*' "_xXx_".data l))) = expandChars specSubstChar l := by
  induction l with
  | nil => rfl
  | cons c cs ih =>
    have hhead :
        replaceChar '*' "_xXx_".data (c :: cs)
          = (if c == '*' then "_xXx_".data else [c]) ++ replaceChar '*' "_xXx_".data cs := rfl
    rw [hhead, replaceChar_append, replaceChar_append, replaceChar_append, ih,
      seqSubst_char c]
    rfl

/-- ASCII lowercasing of one character, as performed by the http crate
when a header name is ingested into a HeaderMap (header names compare
case-insensitively because they are stored lowercased). -/
def lowerChar (c : Char) : Char :=
  if h : 65 ≤ c.toNat ∧ c.toNat ≤ 90 then
    Char.ofNatAux (c.toNat + 32) (Or.inl (by omega))
  else c

/-- ASCII lowercasing of a header name string. -/
def lowerStr (s : String) : String :=
  ⟨s.data.map lowerChar⟩

theorem toNat_lowerChar_of_upper (c : Char) (h : 65 ≤ c.toNat ∧ c.toNat ≤ 90) :
    (lowerChar c).toNat = c.toNat + 32 := by
  unfold lowerChar
  rw [dif_pos h]
  rfl

theorem lowerChar_fix_of_not_upper (c : Char) (h : ¬ (65 ≤ c.toNat ∧ c.toNat ≤ 90)) :
    lowerChar c = c := by
  unfold lowerChar
  exact dif_neg h

theorem lowerChar_not_upper (c : Char) :
    ¬ (65 ≤ (lowerChar c).toNat ∧ (lowerChar c).toNat ≤ 90) := by
  by_cases h : 65 ≤ c.toNat ∧ c.toNat ≤ 90
  · rw [toNat_lowerChar_of_upper c h]
    omega
  · rw [lowerChar_fix_of_not_upper c h]
    exact h

theorem lowerChar_idem (c : Char) : lowerChar (lowerChar c) = lowerChar c :=
  lowerChar_fix_of_not_upper (lowerChar c) (lowerChar_not_upper c)

theorem lowerStr_idem (s : String) : lowerStr (lowerStr s) = lowerStr s := by
  show (⟨((s.data.map lowerChar) : List Char).map lowerChar⟩ : String) = ⟨s.data.map lowerChar⟩
  rw [List.map_map]
  have hcomp : lowerChar ∘ lowerChar = lowerChar := funext lowerChar_idem
  rw [hcomp]

/-- The non-alphanumeric characters allowed in an HTTP header name by the
http crate token table (apostrophe and backtick written by code point). -/
def tokenSpecials : List Char :=
  ['!', '#', '$', '%', '&', Char.ofNat 39, '*', '+', '-', '.', '^', '_',
    Char.ofNat 96, '|', '~']

/-- Is the character a valid HTTP header-name token character (http crate
HeaderName rules)? -/
def isTokenChar (c : Char) : Bool :=
  (c.isAlpha && c.toNat ≤ 122) || c.isDigit || tokenSpecials.contains c

/-- Model of http crate `HeaderName::from_bytes`, the re-encoding used by
proxy_request.rs lines 100-102: fails unless every byte is a token
character, and stores the name lowercased. -/
def headerNameFromBytes (s : String) : Option String :=
  if s ≠ "" && s.data.all isTokenChar then some (lowerStr s) else none

/-- Is the byte legal inside an HTTP header value (http crate HeaderValue
rules: horizontal tab, or a byte that is at least 32 and is not DEL)? -/
def isValidValueChar (c : Char) : Bool :=
  (c.toNat == 9 || (32 ≤ c.toNat && c.toNat ≠ 127)) && c.toNat ≤ 255

/-- Model of http crate `HeaderValue::from_bytes`, the re-encoding used by
proxy_request.rs lines 103-105. -/
def headerValueFromBytes (s : String) : Option String :=
  if s.data.all isValidValueChar then some s else none

/-- Embedding of the outbound header loop of proxy_request.rs lines
98-108: every inbound header except Host is re-encoded with
HeaderName::from_bytes / HeaderValue::from_bytes and appended to the
outbound request.  The source unwraps both conversions, so a conversion
failure aborts the handler (a panic); the model propagates it as `none`.
Inbound names are the lowercase names actix stores in its HeaderMap. -/
def translateHeaders : List (String × String) → Option (List (String × String))
  | [] => some []
  | (k, v) :: rest =>
    if k == "host" then translateHeaders rest
    else
      match headerNameFromBytes k, headerValueFromBytes v with
      | some k2, some v2 =>
        match translateHeaders rest with
        | some out => some ((k2, v2) :: out)
        | none => none
      | _, _ => none

/-- The four hop-by-hop header names dropped by proxy_request.rs lines
125-133 (reqwest header constants; header names are stored lowercased). -/
def hopByHopNames : List String :=
  ["content-encoding", "content-length", "transfer-encoding", "connection"]

/-- Embedding of the response header loop of proxy_request.rs lines
125-149 composed with HeaderMap ingestion: reqwest stores each upstream
header name lowercased, the loop drops the four hop-by-hop names, and a
Content-Type header is forwarded with its value forced to
application/json; every other header is forwarded unchanged. -/
def forwardHeaders : List (String × String) → List (String × String)
  | [] => []
  | (k, v) :: rest =>
    if hopByHopNames.contains (lowerStr k) then forwardHeaders rest
    else if lowerStr k == "content-type" then
      (lowerStr k, "application/json") :: forwardHeaders rest
    else (lowerStr k, v) :: forwardHeaders rest

/-- Modelled from the spec: the cache TTL configured in src/main.rs lines
46-50 (`Cache::builder().time_to_live(Duration::from_secs(60))`).  The
expiry semantics themselves live in the moka library, which is outside
this repository: an entry expires a fixed 60 seconds after insertion,
independent of read access. -/
def CACHE_TTL : Nat := 60

/-- The cache contents: key, stored JSON value, and insertion time in
seconds.  Newest entry for a key shadows older ones. -/
structure CacheStore where
  entries : List (String × JsonVal × Nat)

/-- The raw entry stored under a key, newest first. -/
def lookupEntry (c : CacheStore) (key : String) : Option (JsonVal × Nat) :=
  (c.entries.find? (fun e => e.1 == key)).map (fun e => e.2)

/-- Modelled from the spec: moka `Cache::get` under a time-to-live policy.
Returns the stored value only while its age is below the TTL; an expired
entry behaves exactly like a missing one.  Reading never mutates the
store (no sliding expiration). -/
def cacheGet (c : CacheStore) (key : String) (now : Nat) : Option JsonVal :=
  match lookupEntry c key with
  | some e => if now < e.2 + CACHE_TTL then some e.1 else none
  | none => none

/-- Modelled from the spec: moka `Cache::insert`, replacing any previous
entry under the key and stamping the insertion time. -/
def cacheInsert (c : CacheStore) (key : String) (v : JsonVal) (now : Nat) : CacheStore :=
  ⟨(key, v, now) :: c.entries.filter (fun e => !(e.1 == key))⟩

/-- HTTP methods.  The named constructors cover the standard methods of
actix and reqwest; `ext` covers extension methods, which both libraries
represent as arbitrary token strings. -/
inductive HttpMethod where
  | GET
  | POST
  | PUT
  | DELETE
  | PATCH
  | HEAD
  | OPTIONS
  | TRACE
  | CONNECT
  | ext (s : String)
deriving DecidableEq

/-- Display form of a method, as used by `format!` on an actix Method in
the cache key of proxy_request.rs line 75. -/
def methodStr : HttpMethod → String
  | .GET => "GET"
  | .POST => "POST"
  | .PUT => "PUT"
  | .DELETE => "DELETE"
  | .PATCH => "PATCH"
  | .HEAD => "HEAD"
  | .OPTIONS => "OPTIONS"
  | .TRACE => "TRACE"
  | .CONNECT => "CONNECT"
  | .ext s => s

/-- Embedding of the method translation match of proxy_request.rs lines
88-95: the five listed methods map to themselves, everything else falls
back to GET. -/
def toOutboundMethod : HttpMethod → HttpMethod
  | .GET => .GET
  | .POST => .POST
  | .PUT => .PUT
  | .DELETE => .DELETE
  | .PATCH => .PATCH
  | _ => .GET

/-- An inbound request as proxy_request sees it: the method, the full
request URL as displayed by `format!` (used only in the cache key), the
URL path, the optional raw query string, the header list (names stored
lowercased, as in the actix HeaderMap) and the body bytes. -/
structure InboundRequest where
  method : HttpMethod
  fullUrl : String
  path : String
  query : Option String
  headers : List (String × String)
  body : String

/-- First header value under a (lowercase) name: actix `HeaderMap::get`. -/
def getHeader (headers : List (String × String)) (name : String) : Option String :=
  (headers.find? (fun h => h.1 == name)).map (fun h => h.2)

/-- proxy_request.rs line 35: `full_url.query().unwrap_or_default()`. -/
def queryParamsOf (req : InboundRequest) : String :=
  req.query.getD ""

/-- proxy_request.rs line 36: the inbound path with the first occurrence
of /rest/v1 removed. -/
def pathAfterRewrite (req : InboundRequest) : String :=
  replacenOnce req.path "/rest/v1"

/-- proxy_request.rs lines 38-42: the Host header as a string, or the
empty string when absent. -/
def hostOf (req : InboundRequest) : String :=
  (getHeader req.headers "host").getD ""

/-- Model of Rust `str::strip_prefix`: the remainder after the pattern,
or `none` when the string does not start with the pattern. -/
def dropPre (pat s : String) : Option String :=
  if startsWithL pat.data s.data then some ⟨s.data.drop pat.data.length⟩ else none

/-- proxy_request.rs lines 60-66: the bearer credential, which is the
Authorization header with the `Bearer ` marker stripped, or the empty
string when the header is absent or lacks the marker. -/
def jwtOf (req : InboundRequest) : String :=
  (((getHeader req.headers "authorization").bind (dropPre "Bearer ")).getD "")

/-- proxy_request.rs lines 70-73: the inbound Cache-Control header. -/
def cacheControlOf (req : InboundRequest) : Option String :=
  getHeader req.headers "cache-control"

/-- proxy_request.rs lines 44-55: the resolved target URL, origin chosen
by the dexter host marker, path with /rest/v1 removed once, and the query
string re-appended after a question mark when non-empty. -/
def targetUrlOf (req : InboundRequest) : String :=
  let targetUrlRepl :=
    if containsSub (hostOf req) HOST_DEXTER then
      TARGET_BASE_URL_DEXTER ++ pathAfterRewrite req
    else TARGET_BASE_URL ++ pathAfterRewrite req
  if queryParamsOf req = "" then targetUrlRepl
  else targetUrlRepl ++ "?" ++ queryParamsOf req

/-- proxy_request.rs lines 75-79: the cache key for this request. -/
def cachekeyOf (req : InboundRequest) : String :=
  derive_cachekey (methodStr req.method) req.fullUrl (jwtOf req)

/-- proxy_request.rs line 81: the guard in front of the cache read,
`cache_control_header.as_ref().map_or(true, |h| h != "no-cache")`. -/
def readAllowedOf (req : InboundRequest) : Bool :=
  match cacheControlOf req with
  | none => true
  | some h => h != "no-cache"

/-- Outcome of the single outbound `send` of proxy_request.rs line 115:
either the upstream status, headers and body bytes, or a dispatch error
(network failure, timeout, TLS failure, unparseable target). -/
inductive DispatchResult where
  | ok (status : Nat) (headers : List (String × String)) (body : String)
  | err

/-- The response handed back to the client. -/
structure ProxyResponse where
  status : Nat
  headers : List (String × String)
  body : String

/-- Result of one pipeline run: the client response, the cache store
after the run, and whether the outbound call was performed. -/
structure PipelineResult where
  resp : ProxyResponse
  cache : CacheStore
  outboundCalled : Bool

/-- proxy_request.rs lines 97-113: the outbound request built on the miss
path.  Every inbound header except Host is re-encoded (the source unwraps
the conversions, modelled as Option), and when the bearer credential is
non-empty an apikey header carrying it is appended. -/
def buildOutbound (req : InboundRequest) : Option (List (String × String)) :=
  match translateHeaders req.headers with
  | some hs => some (if jwtOf req ≠ "" then hs ++ [("apikey", jwtOf req)] else hs)
  | none => none

/-- Embedding of the proxy_request pipeline of proxy_request.rs lines
25-157, parametric in the serde_json parser `parse` (applied to the
upstream body with `unwrap_or(Null)`) and the serde_json serializer
`render` (applied by `HttpResponse::Ok().json(..)` on a hit).  The clock
`now` is the insertion/lookup instant in seconds, and `dispatch` is the
outcome the outbound call would have.  On a permitted cache read that
finds a live entry the cached value is returned as a 200 JSON response
and no outbound call happens; otherwise the request is dispatched: a
successful upstream response is parsed, stored under the derived key and
forwarded with filtered headers and the raw body bytes, while a dispatch
error yields an empty 500 and leaves the cache untouched. -/
def proxyStep (parse : String → Option JsonVal) (render : JsonVal → String)
    (req : InboundRequest) (cache : CacheStore) (now : Nat)
    (dispatch : DispatchResult) : PipelineResult :=
  match (if readAllowedOf req then cacheGet cache (cachekeyOf req) now else none) with
  | some v =>
    ⟨⟨200, [("content-type", "application/json")], render v⟩, cache, false⟩
  | none =>
    match dispatch with
    | .ok status hs body =>
      ⟨⟨status, forwardHeaders hs, body⟩,
        cacheInsert cache (cachekeyOf req) ((parse body).getD JsonVal.null) now, true⟩
    | .err => ⟨⟨500, [], ""⟩, cache, true⟩

theorem proxyStep_hit (parse : String → Option JsonVal) (render : JsonVal → String)
    (req : InboundRequest) (cache : CacheStore) (now : Nat) (dispatch : DispatchResult)
    (v : JsonVal)
    (h : (if readAllowedOf req then cacheGet cache (cachekeyOf req) now else none) = some v) :
    proxyStep parse render req cache now dispatch =
      ⟨⟨200, [("content-type", "application/json")], render v⟩, cache, false⟩ := by
  unfold proxyStep
  rw [h]

theorem proxyStep_miss_ok (parse : String → Option JsonVal) (render : JsonVal → String)
    (req : InboundRequest) (cache : CacheStore) (now : Nat)
    (s : Nat) (hs : List (String × String)) (b : String)
    (h : (if readAllowedOf req then cacheGet cache (cachekeyOf req) now else none) = none) :
    proxyStep parse render req cache now (.ok s hs b) =
      ⟨⟨s, forwardHeaders hs, b⟩,
        cacheInsert cache (cachekeyOf req) ((parse b).getD JsonVal.null) now, true⟩ := by
  unfold proxyStep
  rw [h]

theorem proxyStep_miss_err (parse : String → Option JsonVal) (render : JsonVal → String)
    (req : InboundRequest) (cache : CacheStore) (now : Nat)
    (h : (if readAllowedOf req then cacheGet cache (cachekeyOf req) now else none) = none) :
    proxyStep parse render req cache now .err = ⟨⟨500, [], ""⟩, cache, true⟩ := by
  unfold proxyStep
  rw [h]

theorem proxyStep_outbound_of_none (parse : String → Option JsonVal)
    (render : JsonVal → String) (req : InboundRequest) (cache : CacheStore) (now : Nat)
    (dispatch : DispatchResult)
    (h : (if readAllowedOf req then cacheGet cache (cachekeyOf req) now else none) = none) :
    (proxyStep parse render req cache now dispatch).outboundCalled = true := by
  cases dispatch with
  | ok s hs b => rw [proxyStep_miss_ok parse render req cache now s hs b h]
  | err => rw [proxyStep_miss_err parse render req cache now h]

theorem cacheGet_insert_self (c : CacheStore) (key : String) (v : JsonVal) (t now : Nat)
    (h : now < t + CACHE_TTL) : cacheGet (cacheInsert c key v t) key now = some v := by
  unfold cacheGet cacheInsert lookupEntry
  simp [List.find?, h]

theorem cacheGet_insert_expired (c : CacheStore) (key : String) (v : JsonVal) (t now : Nat)
    (h : ¬ now < t + CACHE_TTL) : cacheGet (cacheInsert c key v t) key now = none := by
  unfold cacheGet cacheInsert lookupEntry
  simp [List.find?, h]

/-- C4: for every (method, full URL, credential) triple, the cache key
computed by proxy_request.rs lines 75-79 equals the reference definition
(build the dash-joined tuple string, then substitute star, space, colon
and slash simultaneously), and the derivation is deterministic: two calls
on identical inputs yield an identical key. -/
theorem c4_derive_key_matches_reference (m u cred : String) :
    derive_cachekey m u cred = spec_deriveKey m u cred
    ∧ derive_cachekey m u cred = derive_cachekey m u cred := by
  constructor
  · exact congrArg String.mk (seqSubst_eq_spec (m ++ "-" ++ u ++ "-" ++ cred).data)
  · rfl

/-- C5: target resolution is a pure total function; whenever the inbound
host contains the dexter marker the dexter origin is chosen, any other
host gets the default origin, and the result always agrees with the
ordered matcher-table resolution the spec words the contract with. -/
theorem c5_resolver_total (host path : String) :
    determine_target_url host path = resolveSpec host path
    ∧ (containsSub host HOST_DEXTER = true →
        determine_target_url host path = TARGET_BASE_URL_DEXTER ++ path)
    ∧ (containsSub host HOST_DEXTER = false →
        determine_target_url host path = TARGET_BASE_URL ++ path) := by
  refine ⟨?_, ?_, ?_⟩
  · unfold determine_target_url resolveSpec routeRules
    cases h : containsSub host HOST_DEXTER with
    | true => simp [h]
    | false => simp [h]
  · intro h
    simp [determine_target_url, h]
  · intro h
    simp [determine_target_url, h]

/-- Witness for C5 at concrete hosts: a host containing the dexter marker
resolves to the dexter origin, any other host to the default origin. -/
theorem c5_resolver_total_witness :
    determine_target_url "api.db-dexter.xylex.cloud" "/items"
      = TARGET_BASE_URL_DEXTER ++ "/items"
    ∧ determine_target_url "example.org" "/items" = TARGET_BASE_URL ++ "/items" :=
  ⟨(c5_resolver_total "api.db-dexter.xylex.cloud" "/items").2.1 (by decide),
   (c5_resolver_total "example.org" "/items").2.2 (by decide)⟩

/-- C10: the outbound method equals the inbound method for GET, POST,
PUT, DELETE and PATCH and falls back to GET for every other method, in
particular HEAD and OPTIONS; the translation is total and never fails. -/
theorem c10_method_fallback (m : HttpMethod) :
    toOutboundMethod m =
      (if m = .GET ∨ m = .POST ∨ m = .PUT ∨ m = .DELETE ∨ m = .PATCH then m
        else .GET)
    ∧ toOutboundMethod .HEAD = .GET ∧ toOutboundMethod .OPTIONS = .GET := by
  refine ⟨?_, rfl, rfl⟩
  cases m <;> simp [toOutboundMethod]

/-- Path rewrite as claim C3 words it: remove /rest/v1 only when it is a
leading prefix of the inbound path, exactly once. -/
def specStripV1 (path : String) : String :=
  if startsWithL "/rest/v1".data path.data then ⟨path.data.drop "/rest/v1".data.length⟩
  else path

/-- Target URL as claim C3 words it: chosen origin, the path with the
/rest/v1 prefix stripped exactly once, and the query string re-appended
verbatim after a question mark when non-empty. -/
def specTargetUrl (host path query : String) : String :=
  (if containsSub host HOST_DEXTER then TARGET_BASE_URL_DEXTER else TARGET_BASE_URL)
    ++ specStripV1 path ++ (if query = "" then "" else "?" ++ query)

/-- C3 counterexample: on the inbound path /api/rest/v1/items the marker
/rest/v1 is not a prefix, yet the code removes its first occurrence from
the middle of the path, so the resolved URL differs from the stated
prefix-stripping behaviour at this concrete input. -/
theorem c3_counterexample :
    targetUrlOf ⟨.GET, "u", "/api/rest/v1/items", none, [], ""⟩
      = "https://db-suitsbooks-nl.xylex.cloud/api/items"
    ∧ specTargetUrl "" "/api/rest/v1/items" ""
      = "https://db-suitsbooks-nl.xylex.cloud/api/rest/v1/items"
    ∧ ¬ targetUrlOf ⟨.GET, "u", "/api/rest/v1/items", none, [], ""⟩
        = specTargetUrl "" "/api/rest/v1/items" "" := by
  refine ⟨by decide, by decide, by decide⟩

/-- C3 amended: the resolved target URL is the chosen origin concatenated
with the inbound path after the FIRST OCCURRENCE of the substring
/rest/v1 is removed, wherever it occurs (when the path starts with
/rest/v1 this strips it exactly once, so /rest/v1/rest/v1/items reaches
the backend as /rest/v1/items), and the inbound query string, when
non-empty, is re-appended verbatim after a literal question mark. -/
theorem c3_amended_first_occurrence (req : InboundRequest) :
    targetUrlOf req =
      (if containsSub (hostOf req) HOST_DEXTER then TARGET_BASE_URL_DEXTER
        else TARGET_BASE_URL)
      ++ replacenOnce req.path "/rest/v1"
      ++ (if queryParamsOf req = "" then "" else "?" ++ queryParamsOf req)
    ∧ (∀ rest : String, replacenOnce ⟨"/rest/v1".data ++ rest.data⟩ "/rest/v1" = rest)
    ∧ replacenOnce "/rest/v1/rest/v1/items" "/rest/v1" = "/rest/v1/items" := by
  refine ⟨?_, fun rest => replacenOnce_of_lead "/rest/v1" rest, by decide⟩
  unfold targetUrlOf pathAfterRewrite
  by_cases hq : queryParamsOf req = ""
  · cases h : containsSub (hostOf req) HOST_DEXTER <;>
      simp [h, hq, String.append_empty]
  · cases h : containsSub (hostOf req) HOST_DEXTER <;>
      simp [h, hq, String.append_assoc]

/-- C2: an entry inserted at t0 is served for any lookup strictly before
t0 plus 60 seconds, behaves exactly like a miss for any lookup after t0
plus 60 seconds, and in general a lookup only ever returns a value whose
stored insertion time is within 60 seconds of the lookup instant (expiry
is measured from insertion only; reading is a pure function of the store
and never updates it). -/
theorem c2_ttl_expiry (c : CacheStore) (key : String) (v : JsonVal) (t0 now : Nat) :
    (now < t0 + 60 → cacheGet (cacheInsert c key v t0) key now = some v)
    ∧ (t0 + 60 < now → cacheGet (cacheInsert c key v t0) key now = none)
    ∧ (∀ w, cacheGet c key now = some w →
        ∃ t, lookupEntry c key = some (w, t) ∧ now - t ≤ 60) := by
  refine ⟨?_, ?_, ?_⟩
  · intro h
    exact cacheGet_insert_self c key v t0 now h
  · intro h
    exact cacheGet_insert_expired c key v t0 now (by unfold CACHE_TTL; omega)
  · intro w hw
    unfold cacheGet at hw
    cases he : lookupEntry c key with
    | none =>
      rw [he] at hw
      change (none : Option JsonVal) = some w at hw
      cases hw
    | some e =>
      cases e with | mk w' t =>
      rw [he] at hw
      change (if now < t + CACHE_TTL then some w' else none) = some w at hw
      by_cases ht : now < t + CACHE_TTL
      · rw [if_pos ht] at hw
        injection hw with hww
        exact ⟨t, by rw [hww], by unfold CACHE_TTL at ht; omega⟩
      · rw [if_neg ht] at hw
        cases hw

/-- Witness for C2 at the TTL boundary: the entry inserted at time 0 is a
hit at 59 seconds and a miss at 61 seconds. -/
theorem c2_ttl_expiry_witness :
    cacheGet (cacheInsert ⟨[]⟩ "k" .null 0) "k" 59 = some .null
    ∧ cacheGet (cacheInsert ⟨[]⟩ "k" .null 0) "k" 61 = none :=
  ⟨(c2_ttl_expiry ⟨[]⟩ "k" .null 0 59).1 (by omega),
   (c2_ttl_expiry ⟨[]⟩ "k" .null 0 61).2.1 (by omega)⟩


theorem forwardHeaders_cons_hop (k v : String) (rest : List (String × String))
    (h : lowerStr k ∈ hopByHopNames) :
    forwardHeaders ((k, v) :: rest) = forwardHeaders rest := by
  rw [forwardHeaders, if_pos (by simpa using h)]

theorem forwardHeaders_cons_ct (k v : String) (rest : List (String × String))
    (h : lowerStr k ∉ hopByHopNames) (hct : lowerStr k = "content-type") :
    forwardHeaders ((k, v) :: rest) =
      (lowerStr k, "application/json") :: forwardHeaders rest := by
  rw [forwardHeaders, if_neg (by simpa using h), if_pos (by simpa using hct)]

theorem forwardHeaders_cons_other (k v : String) (rest : List (String × String))
    (h : lowerStr k ∉ hopByHopNames) (hct : ¬ lowerStr k = "content-type") :
    forwardHeaders ((k, v) :: rest) = (lowerStr k, v) :: forwardHeaders rest := by
  rw [forwardHeaders, if_neg (by simpa using h), if_neg (by simpa using hct)]

theorem forwardHeaders_names (hs : List (String × String)) :
    (forwardHeaders hs).map Prod.fst =
      (hs.map (fun h => lowerStr h.1)).filter (fun n => !(hopByHopNames.contains n)) := by
  induction hs with
  | nil => rfl
  | cons p rest ih =>
    cases p with | mk k v =>
    by_cases hhop : lowerStr k ∈ hopByHopNames
    · rw [forwardHeaders_cons_hop k v rest hhop, List.map_cons, List.filter_cons]
      have hc : (!(hopByHopNames.contains (lowerStr k))) = false := by simpa using hhop
      rw [hc, if_neg (by simp)]
      exact ih
    · have hc : (!(hopByHopNames.contains (lowerStr k))) = true := by simpa using hhop
      by_cases hct : lowerStr k = "content-type"
      · rw [forwardHeaders_cons_ct k v rest hhop hct, List.map_cons, List.map_cons,
          List.filter_cons, hc, if_pos rfl, ih]
      · rw [forwardHeaders_cons_other k v rest hhop hct, List.map_cons, List.map_cons,
          List.filter_cons, hc, if_pos rfl, ih]

theorem forwardHeaders_no_hop (hs : List (String × String)) :
    ∀ p ∈ forwardHeaders hs, p.1 ∉ hopByHopNames := by
  induction hs with
  | nil => intro p hp; cases hp
  | cons q rest ih =>
    cases q with | mk k v =>
    intro p hp
    by_cases hhop : lowerStr k ∈ hopByHopNames
    · rw [forwardHeaders_cons_hop k v rest hhop] at hp
      exact ih p hp
    · by_cases hct : lowerStr k = "content-type"
      · rw [forwardHeaders_cons_ct k v rest hhop hct] at hp
        cases hp with
        | head => exact hhop
        | tail _ hp2 => exact ih p hp2
      · rw [forwardHeaders_cons_other k v rest hhop hct] at hp
        cases hp with
        | head => exact hhop
        | tail _ hp2 => exact ih p hp2

theorem forwardHeaders_preserved (hs : List (String × String)) :
    ∀ p ∈ hs, lowerStr p.1 ∉ hopByHopNames →
      ¬ lowerStr p.1 = "content-type" → (lowerStr p.1, p.2) ∈ forwardHeaders hs := by
  induction hs with
  | nil => intro p hp; cases hp
  | cons q rest ih =>
    cases q with | mk k v =>
    intro p hp hhop hct
    cases hp with
    | head =>
      rw [forwardHeaders_cons_other k v rest hhop hct]
      exact List.mem_cons_self _ _
    | tail _ hp2 =>
      have hmem := ih p hp2 hhop hct
      by_cases hhopk : lowerStr k ∈ hopByHopNames
      · rw [forwardHeaders_cons_hop k v rest hhopk]
        exact hmem
      · by_cases hctk : lowerStr k = "content-type"
        · rw [forwardHeaders_cons_ct k v rest hhopk hctk]
          exact List.mem_cons_of_mem _ hmem
        · rw [forwardHeaders_cons_other k v rest hhopk hctk]
          exact List.mem_cons_of_mem _ hmem

theorem forwardHeaders_idem (hs : List (String × String)) :
    forwardHeaders (forwardHeaders hs) = forwardHeaders hs := by
  induction hs with
  | nil => rfl
  | cons q rest ih =>
    cases q with | mk k v =>
    by_cases hhop : lowerStr k ∈ hopByHopNames
    · rw [forwardHeaders_cons_hop k v rest hhop, ih]
    · have hlow : lowerStr (lowerStr k) = lowerStr k := lowerStr_idem k
      by_cases hct : lowerStr k = "content-type"
      · rw [forwardHeaders_cons_ct k v rest hhop hct]
        rw [forwardHeaders_cons_ct (lowerStr k) "application/json" (forwardHeaders rest)
          (by rw [hlow]; exact hhop) (by rw [hlow]; exact hct), hlow, ih]
      · rw [forwardHeaders_cons_other k v rest hhop hct]
        rw [forwardHeaders_cons_other (lowerStr k) v (forwardHeaders rest)
          (by rw [hlow]; exact hhop) (by rw [hlow]; exact hct), hlow, ih]

/-- C6: on the miss path the client-facing header list never contains any
of the four hop-by-hop headers whatever case or position the upstream
used; the forwarded names are exactly the (lowercased) upstream names
minus those four; every other upstream header is forwarded (with its
value unchanged except for the Content-Type rewrite the spec documents
separately); and the filtering is idempotent. -/
theorem c6_hop_by_hop_filtering (hs : List (String × String)) :
    ((forwardHeaders hs).map Prod.fst =
      (hs.map (fun h => lowerStr h.1)).filter (fun n => !(hopByHopNames.contains n)))
    ∧ (∀ p ∈ forwardHeaders hs, p.1 ∉ hopByHopNames)
    ∧ (∀ p ∈ hs, lowerStr p.1 ∉ hopByHopNames → ¬ lowerStr p.1 = "content-type" →
        (lowerStr p.1, p.2) ∈ forwardHeaders hs)
    ∧ forwardHeaders (forwardHeaders hs) = forwardHeaders hs :=
  ⟨forwardHeaders_names hs, forwardHeaders_no_hop hs, forwardHeaders_preserved hs,
    forwardHeaders_idem hs⟩

/-- Witness for C6 on a concrete upstream header list carrying
Content-Encoding in mixed case: the custom header survives filtering and
a second filtering pass changes nothing. -/
theorem c6_hop_by_hop_filtering_witness :
    ("x-custom", "v") ∈ forwardHeaders [("Content-Encoding", "gzip"), ("X-Custom", "v")]
    ∧ forwardHeaders (forwardHeaders [("Content-Encoding", "gzip"), ("X-Custom", "v")])
        = forwardHeaders [("Content-Encoding", "gzip"), ("X-Custom", "v")] := by
  have h := c6_hop_by_hop_filtering [("Content-Encoding", "gzip"), ("X-Custom", "v")]
  constructor
  · have hm := h.2.2.1 ("X-Custom", "v") (by decide) (by decide) (by decide)
    have hl : lowerStr "X-Custom" = "x-custom" := by decide
    rw [hl] at hm
    exact hm
  · exact h.2.2.2

theorem translateHeaders_all_valid (hs : List (String × String))
    (h : ∀ p ∈ hs,
        headerNameFromBytes p.1 = some p.1 ∧ headerValueFromBytes p.2 = some p.2) :
    translateHeaders hs = some (hs.filter (fun p => !(p.1 == "host"))) := by
  induction hs with
  | nil => rfl
  | cons p rest ih =>
    cases p with | mk k v =>
    have hp := h (k, v) (List.mem_cons_self _ _)
    have ih2 := ih (fun q hq => h q (List.mem_cons_of_mem _ hq))
    by_cases hk : k = "host"
    · rw [translateHeaders, if_pos (by simpa using hk), ih2, List.filter_cons]
      have hcond : (!(k == "host")) = false := by simpa using hk
      rw [hcond, if_neg (by simp)]
    · rw [translateHeaders, if_neg (by simpa using hk), hp.1, hp.2, ih2, List.filter_cons]
      have hcond : (!(k == "host")) = true := by simpa using hk
      rw [hcond, if_pos rfl]

/-- C7 counterexample: a header whose name bytes are not re-encodable (a
space is not a token character) makes the translation abort — the source
unwraps the conversion, so the handler panics — instead of silently
omitting the header as the claim states. -/
theorem c7_counterexample :
    translateHeaders [("bad name", "v")] = none
    ∧ ¬ translateHeaders [("bad name", "v")] = some [] := by
  refine ⟨by decide, by decide⟩

/-- C7 amended: a header that cannot be re-encoded makes the translation
fail (the source unwraps both conversions, so the handler panics) rather
than being silently omitted; however, on every inbound request whose
headers are valid re-encodable header names and values — which actix
guarantees for all requests it delivers — the translation succeeds and
copies every header except Host, and the outbound call additionally
carries an apikey header whenever the bearer credential is non-empty. -/
theorem c7_translate_valid (req : InboundRequest)
    (h : ∀ p ∈ req.headers,
        headerNameFromBytes p.1 = some p.1 ∧ headerValueFromBytes p.2 = some p.2) :
    translateHeaders req.headers = some (req.headers.filter (fun p => !(p.1 == "host")))
    ∧ buildOutbound req = some ((req.headers.filter (fun p => !(p.1 == "host")))
        ++ (if jwtOf req ≠ "" then [("apikey", jwtOf req)] else [])) := by
  refine ⟨translateHeaders_all_valid req.headers h, ?_⟩
  unfold buildOutbound
  rw [translateHeaders_all_valid req.headers h]
  change some (if jwtOf req ≠ "" then
      (req.headers.filter (fun p => !(p.1 == "host"))) ++ [("apikey", jwtOf req)]
    else (req.headers.filter (fun p => !(p.1 == "host")))) = _
  by_cases hj : jwtOf req ≠ ""
  · rw [if_pos hj, if_pos hj]
  · rw [if_neg hj, if_neg hj, List.append_nil]

/-- Witness for C7 amended on a concrete request with valid headers: the
translation succeeds, drops only Host, and appends the apikey header. -/
theorem c7_translate_valid_witness :
    translateHeaders (InboundRequest.mk .GET "u" "/p" none
        [("accept", "text/html"), ("host", "a.example"), ("authorization", "Bearer abc")]
        "").headers
      = some [("accept", "text/html"), ("authorization", "Bearer abc")]
    ∧ buildOutbound (InboundRequest.mk .GET "u" "/p" none
        [("accept", "text/html"), ("host", "a.example"), ("authorization", "Bearer abc")]
        "")
      = some [("accept", "text/html"), ("authorization", "Bearer abc"), ("apikey", "abc")] := by
  have h := c7_translate_valid (InboundRequest.mk .GET "u" "/p" none
      [("accept", "text/html"), ("host", "a.example"), ("authorization", "Bearer abc")]
      "") (by decide)
  refine ⟨?_, ?_⟩
  · rw [h.1]
    decide
  · rw [h.2]
    decide

theorem readAllowedOf_no_cache (req : InboundRequest)
    (h : cacheControlOf req = some "no-cache") : readAllowedOf req = false := by
  unfold readAllowedOf
  rw [h]
  simp

/-- C1: the pipeline skips the outbound call and answers from the cache
exactly when the cache read is permitted (Cache-Control absent or not the
literal no-cache — so any other value, including no-store, still reads
the cache) and a live entry exists under the derived key; when the header
is exactly no-cache the read is skipped, the outbound call happens, and a
successful upstream response is still written under the derived key. -/
theorem c1_cache_bypass (parse : String → Option JsonVal) (render : JsonVal → String)
    (req : InboundRequest) (cache : CacheStore) (now : Nat) (dispatch : DispatchResult) :
    ((proxyStep parse render req cache now dispatch).outboundCalled = false ↔
      readAllowedOf req = true ∧ (cacheGet cache (cachekeyOf req) now).isSome = true)
    ∧ (cacheControlOf req = some "no-cache" →
        (proxyStep parse render req cache now dispatch).outboundCalled = true
        ∧ ∀ s hdrs b, dispatch = DispatchResult.ok s hdrs b →
            cacheGet (proxyStep parse render req cache now dispatch).cache
              (cachekeyOf req) now = some ((parse b).getD JsonVal.null))
    ∧ (∀ v, cacheControlOf req = some v → ¬ v = "no-cache" →
        readAllowedOf req = true) := by
  refine ⟨?_, ?_, ?_⟩
  · by_cases hr : readAllowedOf req = true
    · cases hget : cacheGet cache (cachekeyOf req) now with
      | some v =>
        have hgate :
            (if readAllowedOf req then cacheGet cache (cachekeyOf req) now else none)
              = some v := by
          rw [if_pos hr, hget]
        rw [proxyStep_hit parse render req cache now dispatch v hgate]
        simp [hr]
      | none =>
        have hgate :
            (if readAllowedOf req then cacheGet cache (cachekeyOf req) now else none)
              = none := by
          rw [if_pos hr, hget]
        rw [proxyStep_outbound_of_none parse render req cache now dispatch hgate]
        simp
    · have hr2 : readAllowedOf req = false := by simpa using hr
      have hgate :
          (if readAllowedOf req then cacheGet cache (cachekeyOf req) now else none)
            = none := by
        rw [hr2]
        simp
      rw [proxyStep_outbound_of_none parse render req cache now dispatch hgate]
      simp [hr2]
  · intro hcc
    have hgate :
        (if readAllowedOf req then cacheGet cache (cachekeyOf req) now else none)
          = none := by
      rw [readAllowedOf_no_cache req hcc]
      simp
    refine ⟨proxyStep_outbound_of_none parse render req cache now dispatch hgate, ?_⟩
    intro s hdrs b hd
    subst hd
    rw [proxyStep_miss_ok parse render req cache now s hdrs b hgate]
    exact cacheGet_insert_self cache (cachekeyOf req) _ now now
      (by unfold CACHE_TTL; omega)
  · intro v hv hne
    unfold readAllowedOf
    rw [hv]
    simpa using hne

/-- Witness for C1 on a concrete request carrying Cache-Control no-cache:
the outbound call happens even though the claim's read path is reachable,
and the successful upstream response is written under the derived key. -/
theorem c1_cache_bypass_witness :
    (proxyStep (fun _ => none) (fun _ => "null")
        (InboundRequest.mk .GET "u" "/p" none [("cache-control", "no-cache")] "")
        ⟨[]⟩ 0 (DispatchResult.ok 200 [] "b")).outboundCalled = true
    ∧ cacheGet (proxyStep (fun _ => none) (fun _ => "null")
        (InboundRequest.mk .GET "u" "/p" none [("cache-control", "no-cache")] "")
        ⟨[]⟩ 0 (DispatchResult.ok 200 [] "b")).cache
        (cachekeyOf (InboundRequest.mk .GET "u" "/p" none
          [("cache-control", "no-cache")] "")) 0
      = some JsonVal.null := by
  have h := (c1_cache_bypass (fun _ => none) (fun _ => "null")
      (InboundRequest.mk .GET "u" "/p" none [("cache-control", "no-cache")] "")
      ⟨[]⟩ 0 (DispatchResult.ok 200 [] "b")).2.1 (by decide)
  exact ⟨h.1, h.2 200 [] "b" rfl⟩

/-- C8: when the single outbound dispatch fails the pipeline leaves the
cache exactly as it was (no entry inserted or modified), and whenever the
outbound call was actually made the client receives a generic 500 with no
headers and an empty body; the model performs at most one dispatch per
request, so no retry exists. -/
theorem c8_dispatch_error_500 (parse : String → Option JsonVal)
    (render : JsonVal → String) (req : InboundRequest) (cache : CacheStore) (now : Nat) :
    (proxyStep parse render req cache now DispatchResult.err).cache = cache
    ∧ ((proxyStep parse render req cache now DispatchResult.err).outboundCalled = true →
        (proxyStep parse render req cache now DispatchResult.err).resp.status = 500
        ∧ (proxyStep parse render req cache now DispatchResult.err).resp.headers = []
        ∧ (proxyStep parse render req cache now DispatchResult.err).resp.body = "") := by
  cases hgate : (if readAllowedOf req then cacheGet cache (cachekeyOf req) now else none) with
  | some v =>
    rw [proxyStep_hit parse render req cache now DispatchResult.err v hgate]
    exact ⟨rfl, fun hfalse => Bool.noConfusion hfalse⟩
  | none =>
    rw [proxyStep_miss_err parse render req cache now hgate]
    exact ⟨rfl, fun _ => ⟨rfl, rfl, rfl⟩⟩

/-- Witness for C8 on a concrete miss with a failing dispatch: the cache
is untouched and the response is an empty 500. -/
theorem c8_dispatch_error_500_witness :
    (proxyStep (fun _ => none) (fun _ => "null")
        (InboundRequest.mk .GET "u" "/p" none [] "") ⟨[]⟩ 0 DispatchResult.err).resp.status
      = 500
    ∧ (proxyStep (fun _ => none) (fun _ => "null")
        (InboundRequest.mk .GET "u" "/p" none [] "") ⟨[]⟩ 0 DispatchResult.err).resp.body
      = ""
    ∧ (proxyStep (fun _ => none) (fun _ => "null")
        (InboundRequest.mk .GET "u" "/p" none [] "") ⟨[]⟩ 0 DispatchResult.err).cache
      = ⟨[]⟩ := by
  have h := c8_dispatch_error_500 (fun _ => none) (fun _ => "null")
      (InboundRequest.mk .GET "u" "/p" none [] "") ⟨[]⟩ 0
  exact ⟨(h.2 rfl).1, (h.2 rfl).2.2, h.1⟩

/-- C9: whenever the pipeline answers from the cache the response has
status 200 and its body is the JSON serialization of the cached value;
and a dispatched upstream response — whatever its status, and with an
unparseable body stored as JSON null — is written to the cache and then
served as such a 200 JSON response on every permitted lookup within the
60-second TTL. -/
theorem c9_hit_serves_200_json (parse : String → Option JsonVal)
    (render : JsonVal → String) (req : InboundRequest) (cache : CacheStore)
    (now now2 s : Nat) (hdrs : List (String × String)) (b : String)
    (d2 : DispatchResult)
    (h1 : (proxyStep parse render req cache now (DispatchResult.ok s hdrs b)).outboundCalled
      = true)
    (h2 : readAllowedOf req = true)
    (h3 : now2 < now + 60) :
    ((proxyStep parse render req
        (proxyStep parse render req cache now (DispatchResult.ok s hdrs b)).cache
        now2 d2).outboundCalled = false
      ∧ (proxyStep parse render req
          (proxyStep parse render req cache now (DispatchResult.ok s hdrs b)).cache
          now2 d2).resp.status = 200
      ∧ (proxyStep parse render req
          (proxyStep parse render req cache now (DispatchResult.ok s hdrs b)).cache
          now2 d2).resp.body = render ((parse b).getD JsonVal.null))
    ∧ ∀ (c3 : CacheStore) (d3 : DispatchResult) (v : JsonVal),
        cacheGet c3 (cachekeyOf req) now = some v →
        (proxyStep parse render req c3 now d3).resp.status = 200
        ∧ (proxyStep parse render req c3 now d3).resp.body = render v
        ∧ (proxyStep parse render req c3 now d3).outboundCalled = false := by
  constructor
  · cases hgate : (if readAllowedOf req then cacheGet cache (cachekeyOf req) now else none) with
    | some v =>
      rw [proxyStep_hit parse render req cache now (DispatchResult.ok s hdrs b) v hgate] at h1
      exact absurd h1 (by simp)
    | none =>
      rw [proxyStep_miss_ok parse render req cache now s hdrs b hgate]
      have hstore : cacheGet
          (cacheInsert cache (cachekeyOf req) ((parse b).getD JsonVal.null) now)
          (cachekeyOf req) now2 = some ((parse b).getD JsonVal.null) :=
        cacheGet_insert_self cache (cachekeyOf req) _ now now2
          (by unfold CACHE_TTL; omega)
      have hgate2 : (if readAllowedOf req then cacheGet
          (cacheInsert cache (cachekeyOf req) ((parse b).getD JsonVal.null) now)
          (cachekeyOf req) now2 else none) = some ((parse b).getD JsonVal.null) := by
        rw [if_pos h2, hstore]
      rw [proxyStep_hit parse render req
        (cacheInsert cache (cachekeyOf req) ((parse b).getD JsonVal.null) now)
        now2 d2 ((parse b).getD JsonVal.null) hgate2]
      exact ⟨rfl, rfl, rfl⟩
  · intro c3 d3 v hv
    have hgate3 : (if readAllowedOf req then cacheGet c3 (cachekeyOf req) now else none)
        = some v := by
      rw [if_pos h2, hv]
    rw [proxyStep_hit parse render req c3 now d3 v hgate3]
    exact ⟨rfl, rfl, rfl⟩

/-- Witness for C9: a 404 upstream response with an unparseable body is
cached as JSON null and a repeat request 59 seconds later is served from
the cache as a 200 whose body is the serialized null. -/
theorem c9_hit_serves_200_json_witness :
    (proxyStep (fun _ => none) (fun _ => "null")
        (InboundRequest.mk .GET "u" "/p" none [] "")
        (proxyStep (fun _ => none) (fun _ => "null")
          (InboundRequest.mk .GET "u" "/p" none [] "")
          ⟨[]⟩ 0 (DispatchResult.ok 404 [] "x")).cache
        59 DispatchResult.err).resp.status = 200
    ∧ (proxyStep (fun _ => none) (fun _ => "null")
        (InboundRequest.mk .GET "u" "/p" none [] "")
        (proxyStep (fun _ => none) (fun _ => "null")
          (InboundRequest.mk .GET "u" "/p" none [] "")
          ⟨[]⟩ 0 (DispatchResult.ok 404 [] "x")).cache
        59 DispatchResult.err).resp.body = "null"
    ∧ (proxyStep (fun _ => none) (fun _ => "null")
        (InboundRequest.mk .GET "u" "/p" none [] "")
        (proxyStep (fun _ => none) (fun _ => "null")
          (InboundRequest.mk .GET "u" "/p" none [] "")
          ⟨[]⟩ 0 (DispatchResult.ok 404 [] "x")).cache
        59 DispatchResult.err).outboundCalled = false := by
  have h := c9_hit_serves_200_json (fun _ => none) (fun _ => "null")
      (InboundRequest.mk .GET "u" "/p" none [] "") ⟨[]⟩ 0 59 404 [] "x"
      DispatchResult.err rfl rfl (by omega)
  exact ⟨h.1.2.1, h.1.2.2, h.1.1⟩
